import Mathlib

/-!
Verification of the road-roughness data-preparation pipeline
(`functions.py`: `dataset_preparation`, `approximate_ts`, `moving_average`).

The three Spark/numpy functions are shallowly embedded as pure Lean
functions over lists of rows (value level) and lists of column names
(schema level).  Numeric columns are modelled with exact rationals.
-/

/-- One row of `dataset_labels.csv` after the `timestep` column is added
(`functions.py` lines 23 and 33): the six indicator columns plus the
synthetic index. -/
structure LabelRow where
  timestep : Nat
  good_road_left : Int
  good_road_right : Int
  regular_road_left : Int
  regular_road_right : Int
  bad_road_left : Int
  bad_road_right : Int
deriving DecidableEq, Repr

/-- The `road_condition` expression of `functions.py` lines 34-36:
`F.when(bad_road_left == 1 | bad_road_right == 1, 'bad')
  .when(regular_road_left == 1 | regular_road_right == 1, 'regular')
  .otherwise('good')`. -/
def road_condition (r : LabelRow) : String :=
  if r.bad_road_left = 1 ∨ r.bad_road_right = 1 then "bad"
  else if r.regular_road_left = 1 ∨ r.regular_road_right = 1 then "regular"
  else "good"

/-- Claim C1: `road_condition` is total with precedence bad > regular > good:
it returns `bad` exactly when a bad indicator is 1, else `regular` exactly when
a regular indicator is 1, else `good`; exactly one of the three values is
produced, and the concrete row (bad_road_left=0, bad_road_right=1,
regular_road_left=1, others 0) yields `bad`. -/
theorem road_condition_total (r : LabelRow) :
    (road_condition r = "bad" ↔ (r.bad_road_left = 1 ∨ r.bad_road_right = 1)) ∧
    (road_condition r = "regular" ↔
      (¬(r.bad_road_left = 1 ∨ r.bad_road_right = 1) ∧
        (r.regular_road_left = 1 ∨ r.regular_road_right = 1))) ∧
    (road_condition r = "good" ↔
      (¬(r.bad_road_left = 1 ∨ r.bad_road_right = 1) ∧
        ¬(r.regular_road_left = 1 ∨ r.regular_road_right = 1))) ∧
    (road_condition r = "bad" ∨ road_condition r = "regular" ∨
      road_condition r = "good") ∧
    road_condition ⟨0, 0, 0, 1, 0, 0, 1⟩ = "bad" := by
  unfold road_condition
  by_cases hb : r.bad_road_left = 1 ∨ r.bad_road_right = 1 <;>
    by_cases hr : r.regular_road_left = 1 ∨ r.regular_road_right = 1 <;>
      simp [hb, hr]

/-- Claim C10: the derived `road_condition` never consults the good-road
indicators: two label rows agreeing on the four bad/regular indicators get the
same condition, whatever their `good_road_left` / `good_road_right` values. -/
theorem road_condition_indep_good (r1 r2 : LabelRow)
    (h1 : r1.bad_road_left = r2.bad_road_left)
    (h2 : r1.bad_road_right = r2.bad_road_right)
    (h3 : r1.regular_road_left = r2.regular_road_left)
    (h4 : r1.regular_road_right = r2.regular_road_right) :
    road_condition r1 = road_condition r2 := by
  unfold road_condition
  rw [h1, h2, h3, h4]

/-- Witness for C10 at concrete rows differing only in the good indicators. -/
theorem road_condition_indep_good_witness :
    ((LabelRow.mk 0 1 0 1 0 0 0).bad_road_left
        = (LabelRow.mk 0 0 1 1 0 0 0).bad_road_left) ∧
    road_condition ⟨0, 1, 0, 1, 0, 0, 0⟩ = road_condition ⟨0, 0, 1, 1, 0, 0, 0⟩ :=
  ⟨by decide,
    road_condition_indep_good ⟨0, 1, 0, 1, 0, 0, 0⟩ ⟨0, 0, 1, 1, 0, 0, 0⟩
      (by decide) (by decide) (by decide) (by decide)⟩

/-- `np.pad(arr, (p, p), mode='reflect')` for `p ≤ len arr - 1` (a single
reflection on each side, `functions.py` line 72): the left pad mirrors
`arr[1..p]` outward, the right pad mirrors the `p` elements before the last. -/
def reflect_pad (arr : List ℚ) (p : Nat) : List ℚ :=
  ((arr.drop 1).take p).reverse ++ arr ++ (arr.reverse.drop 1).take p

/-- `np.convolve(a, v, mode='valid')` for `v.length ≤ a.length`
(`functions.py` line 73): entry `i` is the dot product of the window of `a`
starting at `i` with the reversed kernel `v`. -/
def convolve_valid (a v : List ℚ) : List ℚ :=
  (List.range (a.length + 1 - v.length)).map (fun i =>
    ((List.range v.length).map
      (fun j => a.getD (i + j) 0 * v.getD (v.length - 1 - j) 0)).sum)

/-- `moving_average(arr, window_size)` of `functions.py` lines 70-74:
reflect-pad by `window_size // 2` on each side, convolve with the uniform
kernel `np.ones(window_size)/window_size` in valid mode, drop the last entry. -/
def moving_average (arr : List ℚ) (window_size : Nat) : List ℚ :=
  let padded_arr := reflect_pad arr (window_size / 2)
  let moving_avg :=
    convolve_valid padded_arr (List.replicate window_size (window_size : ℚ)⁻¹)
  moving_avg.dropLast

/-- Counterexample to claim C3: for the even window size 2 on a 4-element
input, `moving_average` returns 4 elements, not `len(arr) - 2 = 2`. -/
theorem moving_average_even_counterexample :
    ¬ ((moving_average [1, 2, 3, 4] 2).length
        = ([1, 2, 3, 4] : List ℚ).length - 2) := by
  norm_num [moving_average, reflect_pad, convolve_valid, List.range_succ]

/-- Claim C3 (amended): whenever `1 ≤ window_size` and the single-reflection
padding is defined (`window_size / 2 + 1 ≤ len arr`), the result length is
`len arr + 2 * (window_size / 2) - window_size`, which is `len arr - 1` for
odd `window_size` but `len arr` (not `len arr - 2`) for even `window_size`. -/
theorem moving_average_length (arr : List ℚ) (w : Nat) (h1 : 1 ≤ w)
    (h2 : w / 2 + 1 ≤ arr.length) :
    (moving_average arr w).length = arr.length + 2 * (w / 2) - w ∧
    (w % 2 = 1 → (moving_average arr w).length = arr.length - 1) ∧
    (w % 2 = 0 → (moving_average arr w).length = arr.length) := by
  simp only [moving_average, reflect_pad, convolve_valid, List.length_dropLast,
    List.length_map, List.length_range, List.length_append, List.length_take,
    List.length_drop, List.length_reverse, List.length_replicate]
  omega

/-- Witness for the amended C3 at `arr = [1, 2, 3]`, `window_size = 3`. -/
theorem moving_average_length_witness :
    1 ≤ 3 ∧ 3 / 2 + 1 ≤ ([1, 2, 3] : List ℚ).length ∧
    (moving_average [1, 2, 3] 3).length = ([1, 2, 3] : List ℚ).length - 1 :=
  ⟨by decide, by decide,
    (moving_average_length [1, 2, 3] 3 (by decide) (by decide)).2.1 (by decide)⟩

/-- Claim C4: the concrete run of `moving_average([1,2,3,4,5], 3)`:
reflect padding gives `[2,1,2,3,4,5,4]`, valid convolution with the uniform
kernel `[1/3,1/3,1/3]` gives `[5/3,2,3,4,13/3]`, and dropping the last entry
returns `[5/3,2,3,4]`. -/
theorem moving_average_concrete :
    reflect_pad [1, 2, 3, 4, 5] (3 / 2) = [2, 1, 2, 3, 4, 5, 4] ∧
    convolve_valid [2, 1, 2, 3, 4, 5, 4] (List.replicate 3 (3 : ℚ)⁻¹)
      = [5/3, 2, 3, 4, 13/3] ∧
    moving_average [1, 2, 3, 4, 5] 3 = [5/3, 2, 3, 4] := by
  refine ⟨?_, ?_, ?_⟩
  · norm_num [reflect_pad]
  · norm_num [convolve_valid, List.range_succ]
  · norm_num [moving_average, reflect_pad, convolve_valid, List.range_succ]

/-- One row of the table handed to `approximate_ts`: the synthetic `timestep`,
the GPS fields averaged by the aggregation, and the `road_condition` label
(`functions.py` lines 52-67). -/
structure ARow where
  timestep : Nat
  latitude : ℚ
  longitude : ℚ
  road_condition : String
deriving DecidableEq, Repr

/-- The window index `(F.col('timestep') / timesteps).cast('integer')` of
`functions.py` line 59: Spark divides as doubles and the cast truncates toward
zero, and Spark division by zero yields NULL, so the key is `none` when
`timesteps = 0` and the truncated quotient otherwise. -/
def group_key (t : Nat) (timesteps : Int) : Option Int :=
  if timesteps = 0 then none else some (Int.tdiv t timesteps)

/-- `F.mode` over the values of a group (`functions.py` line 63): a most
frequent element (Spark leaves ties unspecified; this model keeps the first
maximiser encountered). -/
def mode (l : List String) : String :=
  l.dedup.foldl (fun best c => if l.count c > l.count best then c else best)
    (l.headD "")

/-- `F.avg` over the values of a group (`functions.py` lines 64 and 66). -/
def avg (l : List ℚ) : ℚ := l.sum / l.length

/-- One row of the aggregated table built by `approximate_ts`
(`functions.py` lines 63-66): the retained `group_by` key, the window's max
`timestep`, the modal label (absent when `label` is false), the mean GPS
fields, and the caller-supplied feature aggregates. -/
structure AggRow where
  group_by : Option Int
  timestep : Nat
  road_condition : Option String
  latitude : ℚ
  longitude : ℚ
  features : List ℚ
deriving DecidableEq, Repr

/-- The `orderBy('timestep')` comparison on aggregated rows. -/
def aggLe (a b : AggRow) : Prop := a.timestep ≤ b.timestep

instance : DecidableRel aggLe := fun a b => Nat.decLe a.timestep b.timestep

instance : IsTotal AggRow aggLe := ⟨fun a b => Nat.le_total a.timestep b.timestep⟩

instance : IsTrans AggRow aggLe := ⟨fun _ _ _ h1 h2 => Nat.le_trans h1 h2⟩

/-- `approximate_ts(df, features, timesteps, label)` of `functions.py`
lines 52-67: tag every row with its `group_by` window key, build one row per
distinct key with `max(timestep)`, `mode(road_condition)` (only if `label`),
`avg(latitude)`, `avg(longitude)` and the caller's feature aggregations, then
sort by `timestep`.  Feature aggregations are modelled as functions from the
group's rows to a value. -/
def approximate_ts (df : List ARow) (features : List (List ARow → ℚ))
    (timesteps : Int) (label : Bool) : List AggRow :=
  let key := fun r : ARow => group_key r.timestep timesteps
  let groups := (df.map key).dedup
  let res := groups.map (fun g =>
    let rows := df.filter (fun r => key r = g)
    ⟨g, (rows.map ARow.timestep).foldl max 0,
      if label then some (mode (rows.map ARow.road_condition)) else none,
      avg (rows.map ARow.latitude), avg (rows.map ARow.longitude),
      features.map (fun f => f rows)⟩)
  List.insertionSort aggLe res

/-- The image of `{0, …, N-1}` under division by `k ≥ 1` is an initial segment
of size `⌈N / k⌉`. -/
lemma card_image_div (N k : Nat) (hk : 1 ≤ k) :
    (Finset.image (fun t => t / k) (Finset.range N)).card = (N + k - 1) / k := by
  rcases Nat.eq_zero_or_pos N with h0 | hpos
  · subst h0
    simp
    rw [Nat.div_eq_of_lt (by omega)]
  · have himg : Finset.image (fun t => t / k) (Finset.range N)
        = Finset.range ((N - 1) / k + 1) := by
      ext j
      simp only [Finset.mem_image, Finset.mem_range]
      constructor
      · rintro ⟨t, ht, rfl⟩
        have h1 : t ≤ N - 1 := by omega
        have h2 := @Nat.div_le_div_right _ _ k h1
        omega
      · intro hj
        refine ⟨j * k, ?_, Nat.mul_div_cancel j hk⟩
        have h1 : j ≤ (N - 1) / k := by omega
        have h2 : j * k ≤ ((N - 1) / k) * k := Nat.mul_le_mul_right k h1
        have h3 : ((N - 1) / k) * k ≤ N - 1 := Nat.div_mul_le_self _ _
        omega
    rw [himg, Finset.card_range]
    have h4 : N + k - 1 = (N - 1) + k := by omega
    rw [h4, Nat.add_div_right _ hk]

/-- `timestep` values `0, …, N-1` produce exactly `⌈N / k⌉` distinct window
keys. -/
lemma length_dedup_div_range (N k : Nat) (hk : 1 ≤ k) :
    (((List.range N).map (fun t => t / k)).dedup).length = (N + k - 1) / k := by
  rw [← List.card_toFinset]
  have himg : ((List.range N).map (fun t => t / k)).toFinset
      = Finset.image (fun t => t / k) (Finset.range N) := by
    ext x
    simp [List.mem_map, List.mem_range]
  rw [himg]
  exact card_image_div N k hk

/-- Claim C2: on an input of `N` rows with timesteps `0, …, N-1` and any
`timesteps ≥ 1`, `approximate_ts` produces exactly `⌈N / timesteps⌉` rows
(stated as `(N + timesteps - 1) / timesteps`); in particular the empty table
yields the empty table. -/
theorem approximate_ts_row_count (df : List ARow)
    (features : List (List ARow → ℚ)) (label : Bool) (N : Nat) (k : Int)
    (hk : 1 ≤ k) (hdf : df.map ARow.timestep = List.range N) :
    (approximate_ts df features k label).length = (N + k.toNat - 1) / k.toNat ∧
    approximate_ts [] features k label = [] := by
  constructor
  · have hk0 : k ≠ 0 := by omega
    have hlen : (approximate_ts df features k label).length
        = ((df.map (fun r : ARow => group_key r.timestep k)).dedup).length := by
      simp only [approximate_ts]
      rw [(List.perm_insertionSort aggLe _).length_eq, List.length_map]
    rw [hlen]
    have hmap : df.map (fun r : ARow => group_key r.timestep k)
        = ((List.range N).map (fun t => t / k.toNat)).map
            (fun x : Nat => (some (x : Int) : Option Int)) := by
      rw [List.map_map, ← hdf, List.map_map]
      apply List.map_congr_left
      intro r _
      simp only [Function.comp_apply, group_key, if_neg hk0]
      congr 1
      rw [Int.ofNat_tdiv]
      congr 1
      exact (Int.toNat_of_nonneg (by omega)).symm
    rw [hmap]
    have hinj : Function.Injective (fun x : Nat => (some (x : Int) : Option Int)) := by
      intro a b h
      simpa using h
    rw [List.dedup_map_of_injective hinj, List.length_map]
    exact length_dedup_div_range N k.toNat (by omega)
  · rfl

/-- Witness for C2: 3 rows with window length 2 give `⌈3/2⌉ = 2` rows. -/
theorem approximate_ts_row_count_witness :
    (1 : Int) ≤ 2 ∧
    ([⟨0, 0, 0, "good"⟩, ⟨1, 0, 0, "good"⟩, ⟨2, 0, 0, "bad"⟩] : List ARow).map
        ARow.timestep = List.range 3 ∧
    (approximate_ts [⟨0, 0, 0, "good"⟩, ⟨1, 0, 0, "good"⟩, ⟨2, 0, 0, "bad"⟩]
        [] 2 true).length = (3 + (2 : Int).toNat - 1) / (2 : Int).toNat ∧
    approximate_ts ([] : List ARow) [] 2 true = [] :=
  ⟨by decide, by decide,
    (approximate_ts_row_count
      [⟨0, 0, 0, "good"⟩, ⟨1, 0, 0, "good"⟩, ⟨2, 0, 0, "bad"⟩] [] true 3 2
      (by decide) (by decide)).1,
    (approximate_ts_row_count
      [⟨0, 0, 0, "good"⟩, ⟨1, 0, 0, "good"⟩, ⟨2, 0, 0, "bad"⟩] [] true 3 2
      (by decide) (by decide)).2⟩

/-- Rows with pairwise distinct key values: filtering a list on the key of one
of its members returns exactly that member. -/
lemma filter_eq_self_of_nodup {α β : Type} [DecidableEq β] (f : α → β) :
    ∀ (l : List α) (r : α), (l.map f).Nodup → r ∈ l →
      l.filter (fun x => f x = f r) = [r] := by
  intro l
  induction l with
  | nil => intro r _ h; cases h
  | cons a l ih =>
    intro r hnd hmem
    simp only [List.map_cons, List.nodup_cons] at hnd
    obtain ⟨hna, hnd'⟩ := hnd
    rcases List.mem_cons.mp hmem with rfl | hmem
    · have hnil : l.filter (fun x => f x = f r) = [] := by
        rw [List.filter_eq_nil_iff]
        intro x hx
        simp only [decide_eq_true_eq]
        intro heq
        exact hna (heq ▸ List.mem_map_of_mem f hx)
      simp [List.filter_cons, hnil]
    · have hne : f a ≠ f r := fun heq => hna (heq ▸ List.mem_map_of_mem f hmem)
      simp only [List.filter_cons, decide_eq_true_eq, hne, if_false]
      exact ih r hnd' hmem

/-- The mode of a one-element group is its element. -/
lemma mode_singleton (s : String) : mode [s] = s := by
  simp [mode, List.count_cons]

/-- The average of a one-element group is its element. -/
lemma avg_singleton (x : ℚ) : avg [x] = x := by
  simp [avg]

/-- Claim C5: with `timesteps = 1` every window holds exactly one row, so
`approximate_ts` is the identity up to column selection: each output row keeps
the unique input row's `timestep`, `latitude`, `longitude` and
`road_condition`, and the input's row order by `timestep` is preserved. -/
theorem approximate_ts_timesteps_one (df : List ARow)
    (features : List (List ARow → ℚ)) (N : Nat)
    (hdf : df.map ARow.timestep = List.range N) :
    approximate_ts df features 1 true
      = df.map (fun r =>
          ⟨some (r.timestep : Int), r.timestep, some r.road_condition,
            r.latitude, r.longitude, features.map (fun f => f [r])⟩) := by
  have hkey : ∀ t : Nat, group_key t 1 = some (t : Int) := by
    intro t
    simp [group_key, Int.tdiv_one]
  have hinj : Function.Injective (fun t : Nat => (some (t : Int) : Option Int)) := by
    intro a b h; simpa using h
  have hnodup_ts : (df.map ARow.timestep).Nodup := hdf ▸ List.nodup_range N
  have hnodup : (df.map (fun r : ARow => (some (r.timestep : Int) : Option Int))).Nodup := by
    have h2 : df.map (fun r : ARow => (some (r.timestep : Int) : Option Int))
        = (df.map ARow.timestep).map (fun t : Nat => (some (t : Int) : Option Int)) := by
      rw [List.map_map]
      rfl
    rw [h2]
    exact hnodup_ts.map hinj
  have hsorted : List.Sorted aggLe (df.map (fun r =>
      (⟨some (r.timestep : Int), r.timestep, some r.road_condition,
        r.latitude, r.longitude, features.map (fun f => f [r])⟩ : AggRow))) := by
    have hpw : df.Pairwise (fun a b : ARow => a.timestep ≤ b.timestep) := by
      have h3 := List.sorted_le_range N
      rw [← hdf] at h3
      exact (List.pairwise_map).mp h3
    exact (List.pairwise_map).mpr hpw
  simp only [approximate_ts, hkey]
  rw [List.dedup_eq_self.mpr hnodup, List.map_map,
    ← List.Sorted.insertionSort_eq hsorted]
  congr 1
  apply List.map_congr_left
  intro r hr
  have hfilter : df.filter
      (fun x : ARow => (some (x.timestep : Int) : Option Int)
          = (some (r.timestep : Int) : Option Int)) = [r] :=
    filter_eq_self_of_nodup (fun x : ARow => (some (x.timestep : Int) : Option Int))
      df r hnodup hr
  simp only [Function.comp_apply, hfilter, List.map_cons, List.map_nil]
  simp [mode_singleton, avg_singleton, Nat.zero_max]

/-- Witness for C5 on a concrete two-row table. -/
theorem approximate_ts_timesteps_one_witness :
    ([⟨0, 1, 2, "good"⟩, ⟨1, 3, 4, "bad"⟩] : List ARow).map ARow.timestep
        = List.range 2 ∧
    approximate_ts [⟨0, 1, 2, "good"⟩, ⟨1, 3, 4, "bad"⟩] [] 1 true
      = ([⟨0, 1, 2, "good"⟩, ⟨1, 3, 4, "bad"⟩] : List ARow).map (fun r =>
          ⟨some (r.timestep : Int), r.timestep, some r.road_condition,
            r.latitude, r.longitude,
            ([] : List (List ARow → ℚ)).map (fun f => f [r])⟩) :=
  ⟨by decide,
    approximate_ts_timesteps_one [⟨0, 1, 2, "good"⟩, ⟨1, 3, 4, "bad"⟩] [] 2
      (by decide)⟩

/-- Counterexample to claim C9: `approximate_ts` does not fail fast on
`timesteps ≤ 0`; at `timesteps = 0` and at `timesteps = -3` it returns an
ordinary one-row result table for this two-row input. -/
theorem approximate_ts_nonpositive_counterexample :
    (approximate_ts [⟨0, 0, 0, "good"⟩, ⟨1, 0, 0, "good"⟩] [] 0 true).length = 1 ∧
    (approximate_ts [⟨0, 0, 0, "good"⟩, ⟨1, 0, 0, "good"⟩] [] (-3) true).length = 1 :=
  ⟨by decide, by decide⟩

/-- A constant list deduplicates to its single value. -/
lemma dedup_replicate_pos {α : Type} [DecidableEq α] (a : α) :
    ∀ n : Nat, 0 < n → (List.replicate n a).dedup = [a] := by
  intro n
  induction n with
  | zero => intro h; cases h
  | succ n ih =>
    intro _
    rcases Nat.eq_zero_or_pos n with h0 | hpos
    · subst h0; simp
    · rw [List.replicate_succ,
        List.dedup_cons_of_mem (List.mem_replicate.mpr
          ⟨Nat.pos_iff_ne_zero.mp hpos, rfl⟩)]
      exact ih hpos

/-- Claim C9 (amended): `approximate_ts` performs no validation of
`timesteps`; with `timesteps = 0` the Spark division yields a NULL window key
for every row, so any nonempty input is collapsed into exactly one output row
instead of raising an error (and negative `timesteps` likewise just groups by
the truncated quotient). -/
theorem approximate_ts_timesteps_zero (df : List ARow)
    (features : List (List ARow → ℚ)) (label : Bool) (hne : df ≠ []) :
    (approximate_ts df features 0 label).length = 1 := by
  simp only [approximate_ts]
  rw [(List.perm_insertionSort aggLe _).length_eq, List.length_map]
  have hkeys : df.map (fun r : ARow => group_key r.timestep 0)
      = List.replicate df.length (none : Option Int) := by
    have hfun : (fun r : ARow => group_key r.timestep 0)
        = Function.const ARow (none : Option Int) := by
      funext r
      simp [group_key, Function.const]
    rw [hfun, List.map_const]
  rw [hkeys, dedup_replicate_pos _ _ (List.length_pos.mpr hne)]
  rfl

/-- Witness for the amended C9 at a concrete one-row table. -/
theorem approximate_ts_timesteps_zero_witness :
    ([⟨5, 0, 0, "bad"⟩] : List ARow) ≠ [] ∧
    (approximate_ts [⟨5, 0, 0, "bad"⟩] [] 0 false).length = 1 :=
  ⟨by decide, approximate_ts_timesteps_zero [⟨5, 0, 0, "bad"⟩] [] false (by decide)⟩

/-- The column set of the table returned by `approximate_ts`
(`functions.py` lines 59-67): Spark's `groupBy('group_by').agg(...)` keeps the
grouping column first, followed by the aggregation aliases in order
(`timestep`, `road_condition` when `label`, `latitude`, `longitude`, then the
caller's feature columns); `orderBy` does not change the schema and the code
never drops `group_by`. -/
def approximate_ts_cols (features : List String) (label : Bool) : List String :=
  if label then
    ["group_by", "timestep", "road_condition", "latitude", "longitude"]
      ++ features
  else
    ["group_by", "timestep", "latitude", "longitude"] ++ features

/-- Counterexample to claim C6: the `group_by` window-index column is present
in the output column set of `approximate_ts` for a concrete feature list and
either label flag. -/
theorem approximate_ts_cols_counterexample :
    "group_by" ∈ approximate_ts_cols ["acc_mean"] true ∧
    "group_by" ∈ approximate_ts_cols ["acc_mean"] false := by
  constructor <;> decide

/-- Claim C6 (amended): the output columns of `approximate_ts` are `group_by`
(retained by the group-by), `timestep`, `road_condition` exactly when `label`
is set, `latitude`, `longitude`, and the caller-supplied feature columns. -/
theorem approximate_ts_cols_spec (features : List String) (label : Bool) :
    approximate_ts_cols features label
      = "group_by" :: "timestep"
          :: ((if label then ["road_condition"] else [])
            ++ ["latitude", "longitude"] ++ features) ∧
    "group_by" ∈ approximate_ts_cols features label := by
  cases label <;> simp [approximate_ts_cols]

/-- One row of a sensor CSV after `withColumn('timestep', ...)`
(`functions.py` lines 16-22): the synthetic index, the shared GPS fields read
as CSV strings, and the remaining per-side sensor readings. -/
structure SRow where
  timestep : Nat
  latitude : String
  longitude : String
  speed : String
  sensors : List String
deriving DecidableEq, Repr

/-- The join key `['timestep', 'latitude', 'longitude', 'speed']` of the
left/right join (`functions.py` line 46). -/
def join_key (r : SRow) : Nat × String × String × String :=
  (r.timestep, r.latitude, r.longitude, r.speed)

/-- `pvs_df_left.join(pvs_df_right, on=[...], how='left')`
(`functions.py` line 46): every left row is paired with each right row whose
key matches, or with `none` when no right row matches. -/
def join_left_right (L R : List SRow) : List (SRow × Option SRow) :=
  L.flatMap (fun l =>
    match R.filter (fun r => join_key r = join_key l) with
    | [] => [(l, none)]
    | ms => ms.map (fun m => (l, some m)))

/-- The processed label table of `functions.py` line 38: only `timestep` and
the derived `road_condition` are kept. -/
def labels_processed (lab : List LabelRow) : List (Nat × String) :=
  lab.map (fun r => (r.timestep, road_condition r))

/-- `.join(pvs_labels, on='timestep', how='left')` (`functions.py` line 46). -/
def join_labels (j : List (SRow × Option SRow)) (labs : List (Nat × String)) :
    List (SRow × Option SRow × Option String) :=
  j.flatMap (fun p =>
    match labs.filter (fun m => m.1 = p.1.timestep) with
    | [] => [(p.1, p.2, none)]
    | ms => ms.map (fun m => (p.1, p.2, some m.2)))

/-- The `orderBy('timestep')` comparison on joined rows. -/
def alignedLe (a b : SRow × Option SRow × Option String) : Prop :=
  a.1.timestep ≤ b.1.timestep

instance : DecidableRel alignedLe := fun a b => Nat.decLe a.1.timestep b.1.timestep

instance : IsTotal (SRow × Option SRow × Option String) alignedLe :=
  ⟨fun a b => Nat.le_total a.1.timestep b.1.timestep⟩

instance : IsTrans (SRow × Option SRow × Option String) alignedLe :=
  ⟨fun _ _ _ h1 h2 => Nat.le_trans h1 h2⟩

/-- The join pipeline of `dataset_preparation` (`functions.py` line 46) on
already-loaded tables: left-join the right table on the shared key, left-join
the processed labels on `timestep`, and order by `timestep`. -/
def dataset_preparation (L R : List SRow) (lab : List LabelRow) :
    List (SRow × Option SRow × Option String) :=
  List.insertionSort alignedLe
    (join_labels (join_left_right L R) (labels_processed lab))

/-- With pairwise distinct keys, filtering on any key yields at most one row. -/
lemma length_filter_le_one {α β : Type} [DecidableEq β] (f : α → β) (l : List α)
    (h : (l.map f).Nodup) (k : β) :
    (l.filter (fun x => f x = k)).length ≤ 1 := by
  induction l with
  | nil => simp
  | cons a l ih =>
    simp only [List.map_cons, List.nodup_cons] at h
    obtain ⟨hna, h'⟩ := h
    by_cases hk : f a = k
    · have hnil : l.filter (fun x => f x = k) = [] := by
        rw [List.filter_eq_nil_iff]
        intro x hx
        simp only [decide_eq_true_eq]
        intro hxk
        exact hna ((hk.trans hxk.symm) ▸ List.mem_map_of_mem f hx)
      simp [List.filter_cons, hk, hnil]
    · simp only [List.filter_cons, decide_eq_true_eq, hk, if_false]
      exact ih h'

/-- A left join against a table with distinct keys preserves left cardinality. -/
lemma join_left_right_length (L R : List SRow)
    (h : (R.map join_key).Nodup) :
    (join_left_right L R).length = L.length := by
  induction L with
  | nil => rfl
  | cons a L ih =>
    unfold join_left_right
    rw [List.flatMap_cons, List.length_append]
    unfold join_left_right at ih
    rw [ih]
    have hle := length_filter_le_one join_key R h (join_key a)
    cases hfa : R.filter (fun r => join_key r = join_key a) with
    | nil =>
      simp
      omega
    | cons m ms =>
      rw [hfa] at hle
      simp only [List.length_cons] at hle
      have hms : ms = [] := by
        cases ms with
        | nil => rfl
        | cons x xs => simp at hle
      subst hms
      simp
      omega

/-- A left join against labels with distinct timesteps preserves cardinality. -/
lemma join_labels_length (j : List (SRow × Option SRow)) (labs : List (Nat × String))
    (h : (labs.map Prod.fst).Nodup) :
    (join_labels j labs).length = j.length := by
  induction j with
  | nil => rfl
  | cons p j ih =>
    unfold join_labels
    rw [List.flatMap_cons, List.length_append]
    unfold join_labels at ih
    rw [ih]
    have hle := length_filter_le_one Prod.fst labs h p.1.timestep
    cases hfa : labs.filter (fun m => m.1 = p.1.timestep) with
    | nil =>
      simp
      omega
    | cons m ms =>
      rw [hfa] at hle
      simp only [List.length_cons] at hle
      have hms : ms = [] := by
        cases ms with
        | nil => rfl
        | cons x xs => simp at hle
      subst hms
      simp
      omega

/-- Claim C7: when the three source tables have identical timestep assignment,
bit-identical `latitude`/`longitude`/`speed` between left and right, and unique
timesteps, `dataset_preparation` returns exactly one row per left-table row and
the result is ordered ascending by `timestep`. -/
theorem dataset_preparation_spec (L R : List SRow) (lab : List LabelRow)
    (hkey : L.map join_key = R.map join_key)
    (hlt : (L.map SRow.timestep).Nodup)
    (hlab : lab.map LabelRow.timestep = L.map SRow.timestep) :
    (dataset_preparation L R lab).length = L.length ∧
    List.Sorted alignedLe (dataset_preparation L R lab) := by
  have hLkeys : (L.map join_key).Nodup := by
    apply List.Nodup.of_map Prod.fst
    have : (L.map join_key).map Prod.fst = L.map SRow.timestep := by
      rw [List.map_map]
      rfl
    rw [this]
    exact hlt
  have hRkeys : (R.map join_key).Nodup := hkey ▸ hLkeys
  have hlabs : ((labels_processed lab).map Prod.fst).Nodup := by
    have : (labels_processed lab).map Prod.fst = lab.map LabelRow.timestep := by
      unfold labels_processed
      rw [List.map_map]
      rfl
    rw [this, hlab]
    exact hlt
  constructor
  · unfold dataset_preparation
    rw [(List.perm_insertionSort alignedLe _).length_eq,
      join_labels_length _ _ hlabs, join_left_right_length _ _ hRkeys]
  · exact List.sorted_insertionSort alignedLe _


/-- Witness for C7 on concrete one-row tables with matching keys. -/
theorem dataset_preparation_spec_witness :
    ([⟨0, "1", "2", "3", ["a"]⟩] : List SRow).map join_key
        = ([⟨0, "1", "2", "3", ["b"]⟩] : List SRow).map join_key ∧
    (([⟨0, "1", "2", "3", ["a"]⟩] : List SRow).map SRow.timestep).Nodup ∧
    (dataset_preparation [⟨0, "1", "2", "3", ["a"]⟩] [⟨0, "1", "2", "3", ["b"]⟩]
        [⟨0, 1, 0, 0, 0, 0, 0⟩]).length
      = ([⟨0, "1", "2", "3", ["a"]⟩] : List SRow).length ∧
    List.Sorted alignedLe
      (dataset_preparation [⟨0, "1", "2", "3", ["a"]⟩] [⟨0, "1", "2", "3", ["b"]⟩]
        [⟨0, 1, 0, 0, 0, 0, 0⟩]) :=
  ⟨by decide, by decide,
    (dataset_preparation_spec [⟨0, "1", "2", "3", ["a"]⟩] [⟨0, "1", "2", "3", ["b"]⟩]
      [⟨0, 1, 0, 0, 0, 0, 0⟩] (by decide) (by decide) (by decide)).1,
    (dataset_preparation_spec [⟨0, "1", "2", "3", ["a"]⟩] [⟨0, "1", "2", "3", ["b"]⟩]
      [⟨0, 1, 0, 0, 0, 0, 0⟩] (by decide) (by decide) (by decide)).2⟩

/-- The shared columns excluded from renaming and used as the join key
(`functions.py` lines 26-27 and 46). -/
def shared_cols : List String := ["timestep", "latitude", "longitude", "speed"]

/-- The column renaming of `functions.py` lines 26-27:
`f'{colname}_L' if colname not in [...] else colname` (and `_R` likewise). -/
def rename_side (cols : List String) (suf : String) : List String :=
  cols.map (fun c => if c ∈ shared_cols then c else c ++ suf)

/-- The schema of a Spark join with `on=ks`: the join columns once, in order,
then the remaining left columns, then the remaining right columns. -/
def join_cols (ks : List String) (lcols rcols : List String) : List String :=
  ks ++ lcols.filter (fun c => c ∉ ks) ++ rcols.filter (fun c => c ∉ ks)

/-- The columns dropped at `functions.py` line 47. -/
def dropped_cols : List String :=
  ["timestamp_L", "timestamp_R", "timestamp_gps_L", "timestamp_gps_R"]

/-- The column set of the table returned by `dataset_preparation`
(`functions.py` lines 21-47) as a function of the two sensor CSVs' column
lists: add `timestep`, rename the sides, join on the shared columns, join the
processed labels (`timestep`, `road_condition`) on `timestep`, and drop the
vestigial timestamp columns. -/
def dataset_preparation_cols (Lc Rc : List String) : List String :=
  let lc := rename_side (Lc ++ ["timestep"]) "_L"
  let rc := rename_side (Rc ++ ["timestep"]) "_R"
  let joined := join_cols shared_cols lc rc
  let with_labels := join_cols ["timestep"] joined ["timestep", "road_condition"]
  with_labels.filter (fun c => c ∉ dropped_cols)

/-- String append concatenates the underlying character lists. -/
lemma string_data_append (a b : String) : (a ++ b).data = a.data ++ b.data := by
  cases a
  cases b
  rfl

/-- A string ending in the last character of `su` differs from any string
whose last character is different. -/
lemma append_ne_of_last (o su t : String) (c : Char)
    (hsu : su.data.reverse.head? = some c)
    (ht : t.data.reverse.head? ≠ some c) : o ++ su ≠ t := by
  intro h
  apply ht
  rw [← h, string_data_append, List.reverse_append]
  cases hrev : su.data.reverse with
  | nil => rw [hrev] at hsu; simp at hsu
  | cons x xs =>
    rw [hrev] at hsu
    simp only [List.head?_cons, Option.some.injEq] at hsu
    subst hsu
    rfl

/-- No `_L`-suffixed column collides with a shared column name. -/
lemma append_L_not_shared (o : String) : o ++ "_L" ∉ shared_cols := by
  simp only [shared_cols, List.mem_cons, List.not_mem_nil, or_false, not_or]
  refine ⟨?_, ?_, ?_, ?_⟩ <;>
    exact append_ne_of_last o "_L" _ 'L' (by decide) (by decide)

/-- No `_R`-suffixed column collides with a shared column name. -/
lemma append_R_not_shared (o : String) : o ++ "_R" ∉ shared_cols := by
  simp only [shared_cols, List.mem_cons, List.not_mem_nil, or_false, not_or]
  refine ⟨?_, ?_, ?_, ?_⟩ <;>
    exact append_ne_of_last o "_R" _ 'R' (by decide) (by decide)

/-- A renamed non-shared column comes from a non-shared source column with the
suffix appended. -/
lemma mem_rename_of (cols : List String) (suf c : String)
    (h : c ∈ rename_side cols suf) (hns : c ∉ shared_cols) :
    ∃ o, o ∈ cols ∧ o ∉ shared_cols ∧ c = o ++ suf := by
  unfold rename_side at h
  obtain ⟨o, ho, heq⟩ := List.mem_map.mp h
  by_cases hos : o ∈ shared_cols
  · rw [if_pos hos] at heq
    exact absurd (heq ▸ hos) hns
  · rw [if_neg hos] at heq
    exact ⟨o, ho, hos, heq.symm⟩

/-- Filtering out `timestep` preserves the count of any other column. -/
lemma count_filter_not_ts (s : String) (hst : s ≠ "timestep") (l : List String) :
    (l.filter (fun c => c ∉ (["timestep"] : List String))).count s = l.count s := by
  apply List.count_filter
  simp [hst]

/-- Dropping the timestamp columns preserves the count of any other column. -/
lemma count_filter_not_dropped (s : String) (hd : s ∉ dropped_cols) (l : List String) :
    (l.filter (fun c => c ∉ dropped_cols)).count s = l.count s := by
  apply List.count_filter
  simp [hd]

/-- Claim C8: in the aligned table's schema every non-shared column is an
`_L`-suffixed left column, an `_R`-suffixed right column, or `road_condition`;
every surviving renamed column is present; each shared field `timestep`,
`latitude`, `longitude`, `speed` appears exactly once, unsuffixed; and none of
the dropped timestamp columns appears. -/
theorem dataset_preparation_cols_spec (Lc Rc : List String)
    (_hL : "timestep" ∉ Lc) (_hR : "timestep" ∉ Rc) :
    (∀ c ∈ dataset_preparation_cols Lc Rc,
      c ∈ shared_cols ∨ c = "road_condition" ∨
      (∃ o, o ∈ Lc ∧ o ∉ shared_cols ∧ c = o ++ "_L") ∨
      (∃ o, o ∈ Rc ∧ o ∉ shared_cols ∧ c = o ++ "_R")) ∧
    (∀ o, o ∈ Lc → o ∉ shared_cols → o ++ "_L" ∉ dropped_cols →
      o ++ "_L" ∈ dataset_preparation_cols Lc Rc) ∧
    (∀ o, o ∈ Rc → o ∉ shared_cols → o ++ "_R" ∉ dropped_cols →
      o ++ "_R" ∈ dataset_preparation_cols Lc Rc) ∧
    (dataset_preparation_cols Lc Rc).count "timestep" = 1 ∧
    (dataset_preparation_cols Lc Rc).count "latitude" = 1 ∧
    (dataset_preparation_cols Lc Rc).count "longitude" = 1 ∧
    (dataset_preparation_cols Lc Rc).count "speed" = 1 ∧
    (∀ d ∈ dropped_cols, d ∉ dataset_preparation_cols Lc Rc) := by
  have hshared_count : ∀ s, s ∈ shared_cols → s ≠ "timestep" → s ∉ dropped_cols →
      (dataset_preparation_cols Lc Rc).count s = 1 := by
    intro s hs hst hd
    have hfilters : ∀ l : List String,
        (l.filter (fun c => c ∉ shared_cols)).count s = 0 := by
      intro l
      rw [List.count_eq_zero]
      intro hmem
      rw [List.mem_filter] at hmem
      have h5 := hmem.2
      simp only [decide_eq_true_eq] at h5
      exact h5 hs
    simp only [dataset_preparation_cols]
    rw [count_filter_not_dropped s hd, join_cols, List.count_append,
      List.count_append, count_filter_not_ts s hst, count_filter_not_ts s hst,
      join_cols, List.count_append, List.count_append]
    have h1 : shared_cols.count s = 1 :=
      List.count_eq_one_of_mem (by decide) hs
    have h2 : (["timestep"] : List String).count s = 0 := by
      rw [List.count_eq_zero]
      simp [hst]
    have h3 : (["timestep", "road_condition"] : List String).count s = 0 := by
      rw [List.count_eq_zero]
      intro hmem
      rcases List.mem_cons.mp hmem with rfl | hmem2
      · exact hst rfl
      · rw [List.mem_singleton] at hmem2
        subst hmem2
        exact (by decide : "road_condition" ∉ shared_cols) hs
    rw [h1, h2, h3, hfilters, hfilters]
  refine ⟨?_, ?_, ?_, ?_, hshared_count "latitude" (by decide) (by decide) (by decide),
    hshared_count "longitude" (by decide) (by decide) (by decide),
    hshared_count "speed" (by decide) (by decide) (by decide), ?_⟩
  · intro c hc
    simp only [dataset_preparation_cols] at hc
    rw [List.mem_filter] at hc
    obtain ⟨hc, hnd⟩ := hc
    rw [join_cols, List.mem_append, List.mem_append] at hc
    rcases hc with (hc | hc) | hc
    · rw [List.mem_singleton] at hc
      subst hc
      exact Or.inl (by decide)
    · rw [List.mem_filter] at hc
      obtain ⟨hc, hnt⟩ := hc
      rw [join_cols, List.mem_append, List.mem_append] at hc
      rcases hc with (hc | hc) | hc
      · exact Or.inl hc
      · rw [List.mem_filter] at hc
        obtain ⟨hc, hns⟩ := hc
        replace hns : c ∉ shared_cols := by simpa using hns
        obtain ⟨o, ho, hos, rfl⟩ := mem_rename_of _ _ _ hc hns
        rcases List.mem_append.mp ho with ho | ho
        · exact Or.inr (Or.inr (Or.inl ⟨o, ho, hos, rfl⟩))
        · rw [List.mem_singleton] at ho
          subst ho
          exact absurd (by decide : ("timestep" : String) ∈ shared_cols) hos
      · rw [List.mem_filter] at hc
        obtain ⟨hc, hns⟩ := hc
        replace hns : c ∉ shared_cols := by simpa using hns
        obtain ⟨o, ho, hos, rfl⟩ := mem_rename_of _ _ _ hc hns
        rcases List.mem_append.mp ho with ho | ho
        · exact Or.inr (Or.inr (Or.inr ⟨o, ho, hos, rfl⟩))
        · rw [List.mem_singleton] at ho
          subst ho
          exact absurd (by decide : ("timestep" : String) ∈ shared_cols) hos
    · rw [List.mem_filter] at hc
      obtain ⟨hc, hnt⟩ := hc
      replace hnt : c ∉ (["timestep"] : List String) := by simpa using hnt
      rcases List.mem_cons.mp hc with rfl | hc2
      · exact absurd (by decide) hnt
      · rw [List.mem_singleton] at hc2
        subst hc2
        exact Or.inr (Or.inl rfl)
  · intro o ho hos hod
    simp only [dataset_preparation_cols]
    rw [List.mem_filter]
    refine ⟨?_, by simpa using hod⟩
    rw [join_cols, List.mem_append, List.mem_append]
    left
    right
    rw [List.mem_filter]
    constructor
    · rw [join_cols, List.mem_append, List.mem_append]
      left
      right
      rw [List.mem_filter]
      constructor
      · unfold rename_side
        exact List.mem_map.mpr ⟨o, List.mem_append_left _ ho, if_neg hos⟩
      · simpa using append_L_not_shared o
    · have hns := append_L_not_shared o
      simp only [decide_eq_true_eq]
      intro hmem
      rw [List.mem_singleton] at hmem
      apply hns
      rw [hmem]
      decide
  · intro o ho hos hod
    simp only [dataset_preparation_cols]
    rw [List.mem_filter]
    refine ⟨?_, by simpa using hod⟩
    rw [join_cols, List.mem_append, List.mem_append]
    left
    right
    rw [List.mem_filter]
    constructor
    · rw [join_cols, List.mem_append, List.mem_append]
      right
      rw [List.mem_filter]
      constructor
      · unfold rename_side
        exact List.mem_map.mpr ⟨o, List.mem_append_left _ ho, if_neg hos⟩
      · simpa using append_R_not_shared o
    · have hns := append_R_not_shared o
      simp only [decide_eq_true_eq]
      intro hmem
      rw [List.mem_singleton] at hmem
      apply hns
      rw [hmem]
      decide
  · have hmidzero : ∀ l : List String,
        (l.filter (fun c => c ∉ (["timestep"] : List String))).count "timestep" = 0 := by
      intro l
      rw [List.count_eq_zero]
      intro hmem
      rw [List.mem_filter] at hmem
      have h5 := hmem.2
      simp only [decide_eq_true_eq] at h5
      exact h5 (by decide)
    simp only [dataset_preparation_cols]
    rw [count_filter_not_dropped "timestep" (by decide) _, join_cols,
      List.count_append, List.count_append, hmidzero, hmidzero]
    decide
  · intro d hd hmem
    simp only [dataset_preparation_cols] at hmem
    rw [List.mem_filter] at hmem
    have h5 := hmem.2
    simp only [decide_eq_true_eq] at h5
    exact h5 hd


/-- Witness for C8 on concrete sensor-CSV column lists. -/
theorem dataset_preparation_cols_spec_witness :
    ("timestep" ∉ (["timestamp", "acc_x", "latitude", "longitude", "speed"] : List String)) ∧
    ("timestep" ∉ (["timestamp", "acc_y", "latitude", "longitude", "speed"] : List String)) ∧
    (dataset_preparation_cols ["timestamp", "acc_x", "latitude", "longitude", "speed"]
        ["timestamp", "acc_y", "latitude", "longitude", "speed"]).count "timestep" = 1 ∧
    (∀ d ∈ dropped_cols,
      d ∉ dataset_preparation_cols ["timestamp", "acc_x", "latitude", "longitude", "speed"]
        ["timestamp", "acc_y", "latitude", "longitude", "speed"]) :=
  ⟨by decide, by decide,
    (dataset_preparation_cols_spec
      ["timestamp", "acc_x", "latitude", "longitude", "speed"]
      ["timestamp", "acc_y", "latitude", "longitude", "speed"]
      (by decide) (by decide)).2.2.2.1,
    (dataset_preparation_cols_spec
      ["timestamp", "acc_x", "latitude", "longitude", "speed"]
      ["timestamp", "acc_y", "latitude", "longitude", "speed"]
      (by decide) (by decide)).2.2.2.2.2.2.2⟩
